import Mathlib

/-!
Shallow embedding of the Go package `chain` (gford1000-go/chain).

The package chains step functions `Func = func(ctx, ...any) ([]any, error)`
through an immutable `Chain[T]` value, ending with a `FinalFunc[T]` that
produces the typed result.  `src/chain.go` is the current revision (with
retry/backoff support); `src/unnamed/part_000` is an earlier revision of the
same file without retries, embedded below in namespace `V0`.

Modelling conventions:
  * Go `context.Context` is modelled by its single observable in this code,
    whether `ctx.Done()` is already closed at the check: a `Bool`
    (`true` = done).  The `Done` channel of a Go context never re-opens, so a
    constant Bool is faithful for a single pipeline run.
  * Go `error` values are modelled by the inductive `GoError`: sentinel
    errors created by `errors.New` are `GoError.base` of a tag (the tag
    `domain id msg` stands for program-specific sentinels, with `id` giving
    the allocation identity that Go compares by pointer), and
    `fmt.Errorf("<prefix>%w", err)` is `GoError.wrap prefix err`.
    `errors.Is` is `errorsIs`, walking the wrap chain.
  * A step function may, on each invocation, return new args, return an
    error, or panic; this is `CallResult`.  Because a Go function closing
    over mutable state can behave differently on each call, the model gives
    the function its 0-based invocation index (within one guarded call) as
    an extra argument.
  * `time.Duration` is an `Int` counting nanoseconds.
  * Go zero values of the generic result type `T` are `default` of an
    `Inhabited` instance.
  * `Then`/`Finally` are instrumented (`ThenI`/`FinallyI`) to additionally
    return the number of times the supplied function was invoked, which the
    Go code makes observable through side effects; `Then`/`Finally`
    themselves are the first projections.
-/

/-- Tags identifying Go sentinel error values by allocation identity.
The five library sentinels of chain.go, plus `domain id msg` for any error
constructed by user code (`id` distinguishes distinct allocations). -/
inductive ErrTag where
  | contextDone
  | nilThenFunc
  | nilFinalFunc
  | unhandledPanic
  | exceededRetries
  | domain (id : Nat) (msg : String)
deriving DecidableEq, Repr

/-- Go error values as produced by this package: a sentinel, or a
`fmt.Errorf` wrap whose message is `pre ++ message of inner` and whose
`Unwrap` is `inner`. -/
inductive GoError where
  | base (tag : ErrTag)
  | wrap (pre : String) (inner : GoError)
deriving DecidableEq, Repr

/-- Message text of each sentinel, from the `errors.New` calls in chain.go. -/
def ErrTag.message : ErrTag → String
  | .contextDone => "context is Done()"
  | .nilThenFunc => "func provided to Then cannot be nil"
  | .nilFinalFunc => "func provided to Finally cannot be nil"
  | .unhandledPanic => "unhandled panic"
  | .exceededRetries => "exceeded retry count"
  | .domain _ msg => msg

/-- The `Error()` string of a modelled Go error. -/
def GoError.message : GoError → String
  | .base tag => tag.message
  | .wrap pre inner => pre ++ inner.message

/-- Model of `errors.Is(e, target)`: equality at the current level, else
unwrap and recurse.  (For `wrap` values Go compares pointers; structural
equality here is used only with sentinel (`base`) targets, where the two
notions agree.) -/
def errorsIs : GoError → GoError → Bool
  | .base tag, target => decide (GoError.base tag = target)
  | .wrap pre inner, target => decide (GoError.wrap pre inner = target) || errorsIs inner target

/-- Outcome of one invocation of a Go step function: a normal return of a
value, a normal return of an error, or a panic with the `%v` rendering of
the panic payload. -/
inductive CallResult (β : Type) where
  | ok (val : β)
  | err (e : GoError)
  | panicked (msg : String)
deriving DecidableEq, Repr

/-- Retry options, from `type Retry struct` in chain.go.  `NumRetries` is a
Go `int`, `BaseWait` a `time.Duration` in nanoseconds, `Forward` a nilable
slice of sentinel errors (`none` = nil slice). -/
structure Retry where
  NumRetries : Int
  BaseWait : Int
  Forward : Option (List GoError)
deriving DecidableEq, Repr

instance : Inhabited Retry := ⟨⟨0, 0, none⟩⟩

/-- Embedding of `Retry.ensureValid`: clamp `NumRetries` into [0,8], default
`BaseWait` to 10ms when non-positive and clamp to 1s, and rebuild `Forward`
as a fresh non-nil slice copying the input (empty when the input is nil). -/
def Retry.ensureValid (r : Retry) : Retry :=
  let n1 := if r.NumRetries < 0 then 0 else r.NumRetries
  let n2 := if n1 > 8 then 8 else n1
  let b1 := if r.BaseWait ≤ 0 then 10000000 else r.BaseWait
  let b2 := if b1 > 1000000000 then 1000000000 else b1
  { NumRetries := n2, BaseWait := b2,
    Forward := some (match r.Forward with | none => [] | some l => l) }

/-- Embedding of `type Func`: a step function, carrying the runtime name
that `runtimeFuncName` would report and, for each (context, args,
invocation index), the outcome of that invocation. -/
structure Func (α : Type) where
  name : String
  run : Bool → List α → Nat → CallResult (List α)

/-- Embedding of `type FinalFunc[T]`: as `Func` but producing the typed
result. -/
structure FinalFunc (α T : Type) where
  name : String
  run : Bool → List α → Nat → CallResult T

/-- Embedding of `type Chain[T]`: the context, the zero-initialised `t`
placeholder, the (validated) retry options, the current args bundle, and
the terminal error (`none` = nil). -/
structure Chain (α T : Type) where
  ctx : Bool
  t : T
  retry : Retry
  args : List α
  err : Option GoError

/-- Embedding of `NewWithRetries`: initial chain with validated options. -/
def NewWithRetries {α T : Type} [Inhabited T] (ctx : Bool) (retry : Retry) (args : List α) :
    Chain α T :=
  ⟨ctx, default, retry.ensureValid, args, none⟩

/-- Embedding of `New`: `NewWithRetries` with the zero `Retry{}`. -/
def New {α T : Type} [Inhabited T] (ctx : Bool) (args : List α) : Chain α T :=
  NewWithRetries ctx ⟨0, 0, none⟩ args

/-- The retry loop shared by `thenWrap` and `finallyWrap` (the Go code
duplicates it verbatim for the two result types; here it is one function
over the result type `β`).  `fuel` is the number of loop iterations still
permitted (`1 + NumRetries` at the top call), `k` the number of invocations
made so far (equally: the 0-based index of the next invocation).  A
panicking invocation is converted at once into the
`fmt.Errorf("%v: %w", r, ErrUnhandledPanic)` error that the deferred
`recover` produces, abandoning the remaining iterations.  Returns the
wrapped call's `(result, err)` as an `Except`, paired with the total number
of invocations of the function. -/
def retryLoop {β : Type} (numRetries : Int) (fwd : List GoError)
    (run : Nat → CallResult β) : Nat → Nat → Except GoError β × Nat
  | 0, k => (.error (.base .exceededRetries), k)
  | fuel + 1, k =>
    match run k with
    | .ok v => (.ok v, k + 1)
    | .panicked msg => (.error (.wrap (msg ++ ": ") (.base .unhandledPanic)), k + 1)
    | .err e =>
      if numRetries = 0 then (.error e, k + 1)
      else if fwd.any (fun t => errorsIs e t) then (.error e, k + 1)
      else retryLoop numRetries fwd run fuel (k + 1)

/-- Embedding of `Chain.thenWrap`, instrumented with the invocation count. -/
def Chain.thenWrap {α T : Type} (c : Chain α T) (f : Func α) :
    Except GoError (List α) × Nat :=
  retryLoop c.retry.NumRetries (match c.retry.Forward with | none => [] | some l => l)
    (fun k => f.run c.ctx c.args k) (1 + c.retry.NumRetries).toNat 0

/-- Embedding of `Chain.finallyWrap`, instrumented with the invocation
count. -/
def Chain.finallyWrap {α T : Type} (c : Chain α T) (f : FinalFunc α T) :
    Except GoError T × Nat :=
  retryLoop c.retry.NumRetries (match c.retry.Forward with | none => [] | some l => l)
    (fun k => f.run c.ctx c.args k) (1 + c.retry.NumRetries).toNat 0

/-- Embedding of `Chain.Then`, instrumented: the resulting chain together
with the number of times `f` was invoked.  `f = none` models a nil `Func`.
The error branches build `Chain[T]{err: ...}` whose other fields are Go
zero values. -/
def Chain.ThenI {α T : Type} [Inhabited T] (c : Chain α T) (f : Option (Func α)) :
    Chain α T × Nat :=
  match c.err with
  | some _ => (c, 0)
  | none =>
    match f with
    | none => (⟨false, default, ⟨0, 0, none⟩, [], some (.base .nilThenFunc)⟩, 0)
    | some f =>
      if c.ctx then
        (⟨false, default, ⟨0, 0, none⟩, [],
          some (.wrap ("prior to call to " ++ f.name ++ ", ") (.base .contextDone))⟩, 0)
      else
        match c.thenWrap f with
        | (.error e, k) =>
          (⟨false, default, ⟨0, 0, none⟩, [],
            some (.wrap ("error in " ++ f.name ++ ": ") e)⟩, k)
        | (.ok result, k) => (⟨c.ctx, c.t, c.retry, result, none⟩, k)

/-- Embedding of `Chain.Then` (the chain produced, dropping the
instrumentation). -/
def Chain.Then {α T : Type} [Inhabited T] (c : Chain α T) (f : Option (Func α)) : Chain α T :=
  (c.ThenI f).1

/-- Embedding of `Chain.Finally`, instrumented: the `(T, error)` pair
together with the number of times `f` was invoked. -/
def Chain.FinallyI {α T : Type} [Inhabited T] (c : Chain α T) (f : Option (FinalFunc α T)) :
    (T × Option GoError) × Nat :=
  match c.err with
  | some e => ((c.t, some e), 0)
  | none =>
    match f with
    | none => ((c.t, some (.base .nilFinalFunc)), 0)
    | some f =>
      if c.ctx then
        ((c.t, some (.wrap ("prior to call to " ++ f.name ++ ", ") (.base .contextDone))), 0)
      else
        match c.finallyWrap f with
        | (.error e, k) => ((c.t, some (.wrap ("error in " ++ f.name ++ ": ") e)), k)
        | (.ok result, k) => ((result, none), k)

/-- Embedding of `Chain.Finally` (the pair produced, dropping the
instrumentation). -/
def Chain.Finally {α T : Type} [Inhabited T] (c : Chain α T) (f : Option (FinalFunc α T)) :
    T × Option GoError :=
  (c.FinallyI f).1

/-- Embedding of `ProcessWithRetries`: build the initial chain, fold `Then`
over the steps in order, call `Finally`. -/
def ProcessWithRetries {α T : Type} [Inhabited T] (ctx : Bool) (fs : List (Option (Func α)))
    (fn : Option (FinalFunc α T)) (retry : Retry) (args : List α) : T × Option GoError :=
  (fs.foldl (fun c f => c.Then f) (NewWithRetries ctx retry args)).Finally fn

/-- Embedding of `Process`: `ProcessWithRetries` with the zero `Retry{}`. -/
def Process {α T : Type} [Inhabited T] (ctx : Bool) (fs : List (Option (Func α)))
    (fn : Option (FinalFunc α T)) (args : List α) : T × Option GoError :=
  ProcessWithRetries ctx fs fn ⟨0, 0, none⟩ args

/-- Exponential backoff before retry number `attempt` (0-based), from
`Chain.sleep`: `BaseWait * (1 << attempt)`.  Within the program's operating
range (`attempt ≤ 8`, `BaseWait ≤ 1s`) the Go `int64` shift and product are
exact, so plain integer arithmetic is faithful. -/
def Chain.sleepBackoff {α T : Type} (c : Chain α T) (attempt : Nat) : Int :=
  c.retry.BaseWait * 2 ^ attempt

/-- Total duration slept by `Chain.sleep` for retry `attempt`, given the
jitter value that `rand.Int63n(int64(backoff / 2))` drew; that call returns
a uniformly distributed value of `[0, backoff/2)`, which the theorems take
as a hypothesis on `jitter`. -/
def Chain.sleepDuration {α T : Type} (c : Chain α T) (attempt : Nat) (jitter : Int) : Int :=
  c.sleepBackoff attempt + jitter

/-- Go `any` values as they occur in this package's pipelines: enough of
Go's dynamic values to express an `int`, a string, and a `[]any` slice
stored as a single element (which is what a missing `...` spread
produces). -/
inductive GoVal where
  | int (n : Int)
  | str (s : String)
  | slice (xs : List GoVal)

instance : Inhabited GoVal := ⟨.int 0⟩

namespace V0

/-!
Embedding of the earlier revision of chain.go kept at
`src/unnamed/part_000`: no `Retry` support and no `recover` around the step
call, so a step is invoked exactly once and is modelled as returning a
result or an error (a panic in this revision escapes `Then`/`Finally`
entirely and is outside the embedding).
-/

/-- Embedding of `type Func` of the part_000 revision: one invocation,
returning new args or an error. -/
structure Func (α : Type) where
  name : String
  run : Bool → List α → Except GoError (List α)

/-- Embedding of `type FinalFunc[T]` of the part_000 revision. -/
structure FinalFunc (α T : Type) where
  name : String
  run : Bool → List α → Except GoError T

/-- Embedding of `type Chain[T]` of the part_000 revision (no retry
field). -/
structure Chain (α T : Type) where
  ctx : Bool
  t : T
  args : List α
  err : Option GoError

/-- Embedding of `New` of the part_000 revision. -/
def New {α T : Type} [Inhabited T] (ctx : Bool) (args : List α) : Chain α T :=
  ⟨ctx, default, args, none⟩

/-- Embedding of `Chain.Then` of the part_000 revision: direct invocation,
no retry loop. -/
def Chain.Then {α T : Type} [Inhabited T] (c : Chain α T) (f : Option (Func α)) : Chain α T :=
  match c.err with
  | some _ => c
  | none =>
    match f with
    | none => ⟨false, default, [], some (.base .nilThenFunc)⟩
    | some f =>
      if c.ctx then
        ⟨false, default, [],
          some (.wrap ("prior to call to " ++ f.name ++ ", ") (.base .contextDone))⟩
      else
        match f.run c.ctx c.args with
        | .error e =>
          ⟨false, default, [], some (.wrap ("error in " ++ f.name ++ ": ") e)⟩
        | .ok result => ⟨c.ctx, c.t, result, none⟩

/-- Embedding of `Chain.Finally` of the part_000 revision. -/
def Chain.Finally {α T : Type} [Inhabited T] (c : Chain α T) (f : Option (FinalFunc α T)) :
    T × Option GoError :=
  match c.err with
  | some e => (c.t, some e)
  | none =>
    match f with
    | none => (c.t, some (.base .nilFinalFunc))
    | some f =>
      if c.ctx then
        (c.t, some (.wrap ("prior to call to " ++ f.name ++ ", ") (.base .contextDone)))
      else
        match f.run c.ctx c.args with
        | .error e => (c.t, some (.wrap ("error in " ++ f.name ++ ": ") e))
        | .ok result => (result, none)

/-- Embedding of `Process` of the part_000 revision.  The source reads
`c := New[T](ctx, args)`: `args` (a `[]any`) is passed to the variadic
parameter WITHOUT the `...` spread, so the initial chain's args bundle is
the one-element bundle holding the whole slice.  The arg type is therefore
fixed to `GoVal`, which can represent that wrapping. -/
def Process {T : Type} [Inhabited T] (ctx : Bool) (fs : List (Option (Func GoVal)))
    (fn : Option (FinalFunc GoVal T)) (args : List GoVal) : T × Option GoError :=
  (fs.foldl (fun c f => c.Then f) (New ctx [GoVal.slice args])).Finally fn

end V0

/-- A deterministic, never-failing, never-panicking step: the modelled
image of a Go `Func` that always returns `(g(args), nil)`. -/
def pureFunc {α : Type} (name : String) (g : List α → List α) : Func α :=
  ⟨name, fun _ args _ => .ok (g args)⟩

/-- A deterministic, never-failing, never-panicking final step. -/
def pureFinal {α T : Type} (name : String) (g : List α → T) : FinalFunc α T :=
  ⟨name, fun _ args _ => .ok (g args)⟩

section RetryLoopLemmas

/-- Unfolding `retryLoop` on an invocation returning a value. -/
theorem retryLoop_ok_step {β : Type} (n : Int) (fwd : List GoError) (run : Nat → CallResult β)
    (fuel k : Nat) (v : β) (hrun : run k = .ok v) :
    retryLoop n fwd run (fuel + 1) k = (.ok v, k + 1) := by
  simp [retryLoop, hrun]

/-- Unfolding `retryLoop` on a panicking invocation: the panic is converted
and the remaining fuel abandoned. -/
theorem retryLoop_panicked_step {β : Type} (n : Int) (fwd : List GoError)
    (run : Nat → CallResult β) (fuel k : Nat) (msg : String)
    (hrun : run k = .panicked msg) :
    retryLoop n fwd run (fuel + 1) k
      = (.error (.wrap (msg ++ ": ") (.base .unhandledPanic)), k + 1) := by
  simp [retryLoop, hrun]

/-- Unfolding `retryLoop` on a failing invocation that is surfaced at once,
either because retries are disabled or because the error matches the
forward set. -/
theorem retryLoop_err_now {β : Type} (n : Int) (fwd : List GoError) (run : Nat → CallResult β)
    (fuel k : Nat) (e : GoError) (hrun : run k = .err e)
    (h : n = 0 ∨ fwd.any (fun t => errorsIs e t) = true) :
    retryLoop n fwd run (fuel + 1) k = (.error e, k + 1) := by
  rcases h with h | h
  · simp [retryLoop, hrun, h]
  · rcases eq_or_ne n 0 with hn | hn <;> simp [retryLoop, hrun, hn, h]

/-- Unfolding `retryLoop` on a failing invocation that is retried. -/
theorem retryLoop_err_step {β : Type} (n : Int) (fwd : List GoError) (run : Nat → CallResult β)
    (fuel k : Nat) (e : GoError) (hrun : run k = .err e) (hn : n ≠ 0)
    (hfwd : fwd.any (fun t => errorsIs e t) = false) :
    retryLoop n fwd run (fuel + 1) k = retryLoop n fwd run fuel (k + 1) := by
  simp [retryLoop, hrun, hn, hfwd]

/-- When every invocation fails with an error that never matches the
forward set and retries are enabled, the loop burns all its fuel, one
invocation per unit, and reports exhaustion. -/
theorem retryLoop_allFail {β : Type} (n : Int) (fwd : List GoError) (run : Nat → CallResult β)
    (e : Nat → GoError) (hn : n ≠ 0) (hrun : ∀ k, run k = .err (e k))
    (hfwd : ∀ k, fwd.any (fun t => errorsIs (e k) t) = false) :
    ∀ fuel k, retryLoop n fwd run fuel k = (.error (.base .exceededRetries), k + fuel)
  | 0, k => by simp [retryLoop]
  | fuel + 1, k => by
    rw [retryLoop_err_step n fwd run fuel k (e k) (hrun k) hn (hfwd k),
      retryLoop_allFail n fwd run e hn hrun hfwd fuel (k + 1)]
    congr 1
    omega

/-- Skipping an initial segment of `i` failing, retried invocations. -/
theorem retryLoop_skipErrs {β : Type} (n : Int) (fwd : List GoError) (run : Nat → CallResult β) :
    ∀ (i fuel k : Nat), i ≤ fuel →
    (∀ m, m < i → n ≠ 0 ∧ ∃ em, run (k + m) = .err em
      ∧ fwd.any (fun t => errorsIs em t) = false) →
    retryLoop n fwd run fuel k = retryLoop n fwd run (fuel - i) (k + i)
  | 0, fuel, k, _, _ => by simp
  | i + 1, fuel, k, hle, h => by
    obtain ⟨fuel, rfl⟩ : ∃ fuelPred, fuel = fuelPred + 1 := ⟨fuel - 1, by omega⟩
    obtain ⟨hn, em, hrun, hfwd⟩ := h 0 (Nat.succ_pos i)
    rw [Nat.add_zero] at hrun
    rw [retryLoop_err_step n fwd run fuel k em hrun hn hfwd,
      retryLoop_skipErrs n fwd run i fuel (k + 1) (by omega) (fun m hm => by
        have hstep := h (m + 1) (by omega)
        rwa [show k + (m + 1) = k + 1 + m by omega] at hstep)]
    congr 1 <;> omega

end RetryLoopLemmas

section PureStepLemmas

/-- A healthy chain (no terminal error, context not done, validated
options) advanced by a pure step just rewrites the args bundle. -/
theorem Then_pureFunc {α T : Type} [Inhabited T] (c : Chain α T) (name : String)
    (g : List α → List α) (hc : c.err = none) (hctx : c.ctx = false)
    (hn : 0 ≤ c.retry.NumRetries) :
    c.Then (some (pureFunc name g)) = ⟨false, c.t, c.retry, g c.args, none⟩ := by
  obtain ⟨ctx, t, retry, args, err⟩ := c
  simp only at hc hctx hn
  subst hc hctx
  obtain ⟨fuel, hfuel⟩ : ∃ fuel, (1 + retry.NumRetries).toNat = fuel + 1 :=
    ⟨retry.NumRetries.toNat, by omega⟩
  have hloop := retryLoop_ok_step retry.NumRetries
    (match retry.Forward with | none => [] | some l => l)
    (fun k => (pureFunc name g).run false args k) fuel 0 (g args) rfl
  simp [Chain.Then, Chain.ThenI, Chain.thenWrap, hfuel, hloop]

/-- A healthy chain finalised by a pure final step returns the final
transformation of the args bundle and no error. -/
theorem Finally_pureFinal {α T : Type} [Inhabited T] (c : Chain α T) (name : String)
    (g : List α → T) (hc : c.err = none) (hctx : c.ctx = false)
    (hn : 0 ≤ c.retry.NumRetries) :
    c.Finally (some (pureFinal name g)) = (g c.args, none) := by
  obtain ⟨ctx, t, retry, args, err⟩ := c
  simp only at hc hctx hn
  subst hc hctx
  obtain ⟨fuel, hfuel⟩ : ∃ fuel, (1 + retry.NumRetries).toNat = fuel + 1 :=
    ⟨retry.NumRetries.toNat, by omega⟩
  have hloop := retryLoop_ok_step retry.NumRetries
    (match retry.Forward with | none => [] | some l => l)
    (fun k => (pureFinal name g).run false args k) fuel 0 (g args) rfl
  simp [Chain.Finally, Chain.FinallyI, Chain.finallyWrap, hfuel, hloop]

/-- Folding `Then` over a list of pure steps composes their
transformations over the args bundle. -/
theorem foldl_Then_pure {α T : Type} [Inhabited T] :
    ∀ (gs : List (String × (List α → List α))) (c : Chain α T),
    c.err = none → c.ctx = false → 0 ≤ c.retry.NumRetries →
    (gs.map (fun p => some (pureFunc p.1 p.2))).foldl Chain.Then c
      = ⟨false, c.t, c.retry, gs.foldl (fun a p => p.2 a) c.args, none⟩
  | [], c, hc, hctx, _ => by
    obtain ⟨ctx, t, retry, args, err⟩ := c
    simp only at hc hctx
    subst hc hctx
    rfl
  | p :: gs, c, hc, hctx, hn => by
    rw [List.map_cons, List.foldl_cons, List.foldl_cons,
      Then_pureFunc c p.1 p.2 hc hctx hn,
      foldl_Then_pure gs ⟨false, c.t, c.retry, p.2 c.args, none⟩ rfl rfl hn]

end PureStepLemmas

/-- C1: a failure-free pipeline returns the composition of its steps.  For
every list of deterministic, non-failing, non-panicking steps (modelled by
`pureFunc`), a non-cancelled context, and a final step, the pipeline
`New(ctx, args).Then(f1)...Then(fk).Finally(fn)` returns the final step
applied to the left fold of the step transformations over the initial
args, with a nil error. -/
theorem failureFree_pipeline_composes {α T : Type} [Inhabited T]
    (gs : List (String × (List α → List α))) (fname : String) (g : List α → T)
    (args : List α) :
    ((gs.map (fun p => some (pureFunc p.1 p.2))).foldl Chain.Then
        (New (α := α) (T := T) false args)).Finally (some (pureFinal fname g))
      = (g (gs.foldl (fun a p => p.2 a) args), none) := by
  rw [foldl_Then_pure gs (New false args) rfl rfl (le_refl 0)]
  exact Finally_pureFinal _ fname g rfl rfl (le_refl 0)

/-- C2: a terminal error is sticky and propagated unchanged.  For every
chain carrying a terminal error `e` (its `t` placeholder being the zero
value, as on every chain the API can build) and every argument to `Then`
(nil included), `Then` returns the chain unchanged and invokes nothing
(invocation count 0); any sequence of later `Then` calls leaves it
unchanged; and `Finally` returns the zero value of `T` with the same error
`e`, invoking nothing. -/
theorem terminalError_noop {α T : Type} [Inhabited T] (c : Chain α T) (e : GoError)
    (f : Option (Func α)) (g : Option (FinalFunc α T))
    (he : c.err = some e) (ht : c.t = default) :
    c.ThenI f = (c, 0)
      ∧ (∀ fs : List (Option (Func α)), fs.foldl Chain.Then c = c)
      ∧ c.FinallyI g = ((default, some e), 0) := by
  have hthen : ∀ f' : Option (Func α), c.ThenI f' = (c, 0) := by
    intro f'
    obtain ⟨ctx, t, retry, args, err⟩ := c
    simp only at he
    subst he
    rfl
  refine ⟨hthen f, ?_, ?_⟩
  · intro fs
    induction fs with
    | nil => rfl
    | cons f' fs ih =>
      rw [List.foldl_cons, show c.Then f' = c from congrArg Prod.fst (hthen f'), ih]
  · obtain ⟨ctx, t, retry, args, err⟩ := c
    simp only at he ht
    subst he ht
    rfl

/-- Witness for C2 at a concrete errored chain over `Int` args and an
`Int` result. -/
theorem terminalError_noop_witness :
    Chain.ThenI (α := Int) (T := Int)
        ⟨false, 0, ⟨0, 0, none⟩, [], some (.base (.domain 0 "boom"))⟩ none
        = (⟨false, 0, ⟨0, 0, none⟩, [], some (.base (.domain 0 "boom"))⟩, 0)
      ∧ Chain.FinallyI (α := Int) (T := Int)
        ⟨false, 0, ⟨0, 0, none⟩, [], some (.base (.domain 0 "boom"))⟩ none
        = ((0, some (.base (.domain 0 "boom"))), 0) :=
  ⟨(terminalError_noop _ _ none none rfl rfl).1,
   (terminalError_noop _ _ none none rfl rfl).2.2⟩

/-- C6: a context that is already done short-circuits before the step.  On
a healthy chain whose context is done, `Then` does not invoke the step
(count 0) and returns the `"prior to call to <step>, <ErrContextDone>"`
error, which `errors.Is`-matches `ErrContextDone` and renders exactly that
message; every later `Then` or `Finally` on the resulting chain invokes
nothing; `Finally` on the original chain behaves the same way. -/
theorem contextDone_skipsStep {α T : Type} [Inhabited T] (c : Chain α T)
    (f : Func α) (fn : FinalFunc α T) (hc : c.err = none) (hd : c.ctx = true) :
    c.ThenI (some f)
        = (⟨false, default, ⟨0, 0, none⟩, [],
            some (.wrap ("prior to call to " ++ f.name ++ ", ") (.base .contextDone))⟩, 0)
      ∧ errorsIs (.wrap ("prior to call to " ++ f.name ++ ", ") (.base .contextDone))
          (.base .contextDone) = true
      ∧ (GoError.wrap ("prior to call to " ++ f.name ++ ", ") (.base .contextDone)).message
          = "prior to call to " ++ f.name ++ ", " ++ "context is Done()"
      ∧ (∀ g, (c.ThenI (some f)).1.ThenI g = ((c.ThenI (some f)).1, 0))
      ∧ (∀ h, ((c.ThenI (some f)).1.FinallyI h).2 = 0)
      ∧ c.FinallyI (some fn)
        = ((c.t, some (.wrap ("prior to call to " ++ fn.name ++ ", ") (.base .contextDone))), 0) := by
  obtain ⟨ctx, t, retry, args, err⟩ := c
  simp only at hc hd
  subst hc hd
  refine ⟨rfl, ?_, rfl, fun g => rfl, fun h => rfl, rfl⟩
  simp [errorsIs]

/-- Witness for C6 at a concrete healthy chain whose context is done. -/
theorem contextDone_skipsStep_witness :
    Chain.ThenI (α := Int) (T := Int) ⟨true, 0, ⟨0, 0, none⟩, [], none⟩
        (some ⟨"step", fun _ a _ => .ok a⟩)
        = (⟨false, 0, ⟨0, 0, none⟩, [],
            some (.wrap ("prior to call to " ++ "step" ++ ", ") (.base .contextDone))⟩, 0)
      ∧ Chain.FinallyI (α := Int) (T := Int) ⟨true, 0, ⟨0, 0, none⟩, [], none⟩
        (some ⟨"final", fun _ _ _ => .ok 7⟩)
        = ((0, some (.wrap ("prior to call to " ++ "final" ++ ", ") (.base .contextDone))), 0) :=
  ⟨(contextDone_skipsStep ⟨true, 0, ⟨0, 0, none⟩, [], none⟩ ⟨"step", fun _ a _ => .ok a⟩
      ⟨"final", fun _ _ _ => .ok 7⟩ rfl rfl).1,
   (contextDone_skipsStep ⟨true, 0, ⟨0, 0, none⟩, [], none⟩ ⟨"step", fun _ a _ => .ok a⟩
      ⟨"final", fun _ _ _ => .ok 7⟩ rfl rfl).2.2.2.2.2⟩

/-- C3: retry exhaustion versus non-retryable forwarding.  On a healthy
chain with validated `NumRetries = n`, `1 ≤ n ≤ 8`, and non-retryable set
`fwd`, a step (or final step) failing on every invocation: if no produced
error ever matches `fwd` via `errors.Is`, the function is invoked exactly
`n + 1` times and the pipeline error wraps `ErrExceededRetries` (and
`errors.Is`-matches it); if the first error matches `fwd`, the function is
invoked exactly once and that original error is surfaced wrapped with the
step's identity. -/
theorem retry_exhaustion_vs_forward {α T : Type} [Inhabited T] (c : Chain α T)
    (f : Func α) (fn : FinalFunc α T) (e e' : Nat → GoError) (fwd : List GoError) (n : Nat)
    (hc : c.err = none) (hd : c.ctx = false)
    (hretry : c.retry.NumRetries = (n : Int)) (hF : c.retry.Forward = some fwd)
    (hn1 : 1 ≤ n) (hn8 : n ≤ 8)
    (hf : ∀ k, f.run c.ctx c.args k = .err (e k))
    (hfn : ∀ k, fn.run c.ctx c.args k = .err (e' k)) :
    ((∀ k, fwd.any (fun t => errorsIs (e k) t) = false) →
      c.ThenI (some f)
          = (⟨false, default, ⟨0, 0, none⟩, [],
              some (.wrap ("error in " ++ f.name ++ ": ") (.base .exceededRetries))⟩, n + 1)
        ∧ errorsIs (.wrap ("error in " ++ f.name ++ ": ") (.base .exceededRetries))
            (.base .exceededRetries) = true)
    ∧ ((∀ k, fwd.any (fun t => errorsIs (e' k) t) = false) →
      c.FinallyI (some fn)
          = ((c.t, some (.wrap ("error in " ++ fn.name ++ ": ") (.base .exceededRetries))), n + 1))
    ∧ (fwd.any (fun t => errorsIs (e 0) t) = true →
      c.ThenI (some f)
          = (⟨false, default, ⟨0, 0, none⟩, [],
              some (.wrap ("error in " ++ f.name ++ ": ") (e 0))⟩, 1))
    ∧ (fwd.any (fun t => errorsIs (e' 0) t) = true →
      c.FinallyI (some fn)
          = ((c.t, some (.wrap ("error in " ++ fn.name ++ ": ") (e' 0))), 1)) := by
  obtain ⟨ctx, t, retry, args, err⟩ := c
  obtain ⟨numR, baseW, fwdOpt⟩ := retry
  simp only at hc hd hretry hF hf hfn
  subst hc hd hretry hF
  have hfuel : (1 + ((n : Nat) : Int)).toNat = n + 1 := by omega
  have hne : ((n : Nat) : Int) ≠ 0 := by omega
  refine ⟨fun hA => ?_, fun hA => ?_, fun hB => ?_, fun hB => ?_⟩
  · have hloop := retryLoop_allFail ((n : Nat) : Int) fwd (fun k => f.run false args k) e
      hne hf hA (n + 1) 0
    constructor
    · simp [Chain.ThenI, Chain.thenWrap, hfuel, hloop]
    · simp [errorsIs]
  · have hloop := retryLoop_allFail ((n : Nat) : Int) fwd (fun k => fn.run false args k) e'
      hne hfn hA (n + 1) 0
    simp [Chain.FinallyI, Chain.finallyWrap, hfuel, hloop]
  · have hloop := retryLoop_err_now ((n : Nat) : Int) fwd (fun k => f.run false args k) n 0
      (e 0) (hf 0) (Or.inr hB)
    simp [Chain.ThenI, Chain.thenWrap, hfuel, hloop]
  · have hloop := retryLoop_err_now ((n : Nat) : Int) fwd (fun k => fn.run false args k) n 0
      (e' 0) (hfn 0) (Or.inr hB)
    simp [Chain.FinallyI, Chain.finallyWrap, hfuel, hloop]

/-- Witness for C3 with n = 2: a step failing with a plain domain error is
invoked 3 times and exhaustion is reported; a step failing with a
forwarded sentinel is invoked once and the sentinel surfaced. -/
theorem retry_exhaustion_vs_forward_witness :
    (Chain.ThenI (α := Int) (T := Int)
        ⟨false, 0, ⟨2, 10000000, some [.base (.domain 7 "fatal")]⟩, [], none⟩
        (some ⟨"step", fun _ _ _ => .err (.base (.domain 3 "flaky"))⟩)
        = (⟨false, 0, ⟨0, 0, none⟩, [],
            some (.wrap ("error in " ++ "step" ++ ": ") (.base .exceededRetries))⟩, 3))
      ∧ (Chain.ThenI (α := Int) (T := Int)
        ⟨false, 0, ⟨2, 10000000, some [.base (.domain 7 "fatal")]⟩, [], none⟩
        (some ⟨"step2", fun _ _ _ => .err (.base (.domain 7 "fatal"))⟩)
        = (⟨false, 0, ⟨0, 0, none⟩, [],
            some (.wrap ("error in " ++ "step2" ++ ": ") (.base (.domain 7 "fatal")))⟩, 1)) :=
  ⟨((retry_exhaustion_vs_forward
      ⟨false, 0, ⟨2, 10000000, some [.base (.domain 7 "fatal")]⟩, [], none⟩
      ⟨"step", fun _ _ _ => .err (.base (.domain 3 "flaky"))⟩
      ⟨"final", fun _ _ _ => .err (.base (.domain 3 "flaky"))⟩
      (fun _ => .base (.domain 3 "flaky")) (fun _ => .base (.domain 3 "flaky"))
      [.base (.domain 7 "fatal")] 2 rfl rfl rfl rfl (by decide) (by decide)
      (fun _ => rfl) (fun _ => rfl)).1 (fun _ => by decide)).1,
   (retry_exhaustion_vs_forward
      ⟨false, 0, ⟨2, 10000000, some [.base (.domain 7 "fatal")]⟩, [], none⟩
      ⟨"step2", fun _ _ _ => .err (.base (.domain 7 "fatal"))⟩
      ⟨"final", fun _ _ _ => .err (.base (.domain 7 "fatal"))⟩
      (fun _ => .base (.domain 7 "fatal")) (fun _ => .base (.domain 7 "fatal"))
      [.base (.domain 7 "fatal")] 2 rfl rfl rfl rfl (by decide) (by decide)
      (fun _ => rfl) (fun _ => rfl)).2.2.1 (by decide)⟩

/-- C4: panics are contained and abort the retry sequence.  On a healthy
chain, if a step's first `i` invocations fail with retryable errors and
invocation `i` panics (with `i` within the retry budget), then `Then`
returns an error wrapping `ErrUnhandledPanic` carrying the panic message,
after exactly `i + 1` invocations — the remaining retry attempts are
abandoned and no panic reaches the caller (the guarded call returns an
ordinary error value).  Likewise for the final step through `Finally`. -/
theorem panic_contained {α T : Type} [Inhabited T] (c : Chain α T)
    (f : Func α) (fn : FinalFunc α T) (e e' : Nat → GoError) (fwd : List GoError)
    (i j : Nat) (msg msg' : String)
    (hc : c.err = none) (hd : c.ctx = false) (hF : c.retry.Forward = some fwd)
    (hi : (i : Int) ≤ c.retry.NumRetries) (hj : (j : Int) ≤ c.retry.NumRetries)
    (hf : ∀ m, m < i →
      f.run c.ctx c.args m = .err (e m) ∧ fwd.any (fun t => errorsIs (e m) t) = false)
    (hp : f.run c.ctx c.args i = .panicked msg)
    (hfn : ∀ m, m < j →
      fn.run c.ctx c.args m = .err (e' m) ∧ fwd.any (fun t => errorsIs (e' m) t) = false)
    (hp' : fn.run c.ctx c.args j = .panicked msg') :
    c.ThenI (some f)
        = (⟨false, default, ⟨0, 0, none⟩, [],
            some (.wrap ("error in " ++ f.name ++ ": ")
              (.wrap (msg ++ ": ") (.base .unhandledPanic)))⟩, i + 1)
      ∧ errorsIs (.wrap ("error in " ++ f.name ++ ": ")
          (.wrap (msg ++ ": ") (.base .unhandledPanic))) (.base .unhandledPanic) = true
      ∧ c.FinallyI (some fn)
        = ((c.t, some (.wrap ("error in " ++ fn.name ++ ": ")
            (.wrap (msg' ++ ": ") (.base .unhandledPanic)))), j + 1) := by
  obtain ⟨ctx, t, retry, args, err⟩ := c
  obtain ⟨numR, baseW, fwdOpt⟩ := retry
  simp only at hc hd hF hi hj hf hp hfn hp'
  subst hc hd hF
  refine ⟨?_, by simp [errorsIs], ?_⟩
  · have hskip := retryLoop_skipErrs numR fwd (fun k => f.run false args k) i
      ((1 + numR).toNat) 0 (by omega)
      (fun m hm => ⟨by omega, e m, by simpa using (hf m hm).1, (hf m hm).2⟩)
    obtain ⟨fuelT, hfT⟩ : ∃ fl, (1 + numR).toNat - i = fl + 1 :=
      ⟨(1 + numR).toNat - i - 1, by omega⟩
    have hpan := retryLoop_panicked_step numR fwd (fun k => f.run false args k) fuelT i msg hp
    simp [Chain.ThenI, Chain.thenWrap, hskip, hfT, hpan]
  · have hskip := retryLoop_skipErrs numR fwd (fun k => fn.run false args k) j
      ((1 + numR).toNat) 0 (by omega)
      (fun m hm => ⟨by omega, e' m, by simpa using (hfn m hm).1, (hfn m hm).2⟩)
    obtain ⟨fuelT, hfT⟩ : ∃ fl, (1 + numR).toNat - j = fl + 1 :=
      ⟨(1 + numR).toNat - j - 1, by omega⟩
    have hpan := retryLoop_panicked_step numR fwd (fun k => fn.run false args k) fuelT j msg' hp'
    simp [Chain.FinallyI, Chain.finallyWrap, hskip, hfT, hpan]

/-- Witness for C4: with 3 retries allowed, a step that fails once and
panics on its second invocation is invoked exactly twice, and a final step
panicking at once is invoked exactly once; both surface the converted
panic error. -/
theorem panic_contained_witness :
    Chain.ThenI (α := Int) (T := Int) ⟨false, 0, ⟨3, 10000000, some []⟩, [], none⟩
        (some ⟨"step", fun _ _ k => if k = 0 then .err (.base (.domain 5 "once")) else .panicked "boom"⟩)
        = (⟨false, 0, ⟨0, 0, none⟩, [],
            some (.wrap ("error in " ++ "step" ++ ": ")
              (.wrap ("boom" ++ ": ") (.base .unhandledPanic)))⟩, 2)
      ∧ Chain.FinallyI (α := Int) (T := Int) ⟨false, 0, ⟨3, 10000000, some []⟩, [], none⟩
        (some ⟨"final", fun _ _ _ => .panicked "final boom"⟩)
        = ((0, some (.wrap ("error in " ++ "final" ++ ": ")
            (.wrap ("final boom" ++ ": ") (.base .unhandledPanic)))), 1) :=
  ⟨(panic_contained ⟨false, 0, ⟨3, 10000000, some []⟩, [], none⟩
      ⟨"step", fun _ _ k => if k = 0 then .err (.base (.domain 5 "once")) else .panicked "boom"⟩
      ⟨"final", fun _ _ _ => .panicked "final boom"⟩
      (fun _ => .base (.domain 5 "once")) (fun _ => .base (.domain 5 "once")) [] 1 0 "boom" "final boom"
      rfl rfl rfl (by decide) (by decide) (by decide) (by decide) (by decide) rfl).1,
   (panic_contained ⟨false, 0, ⟨3, 10000000, some []⟩, [], none⟩
      ⟨"step", fun _ _ k => if k = 0 then .err (.base (.domain 5 "once")) else .panicked "boom"⟩
      ⟨"final", fun _ _ _ => .panicked "final boom"⟩
      (fun _ => .base (.domain 5 "once")) (fun _ => .base (.domain 5 "once")) [] 1 0 "boom" "final boom"
      rfl rfl rfl (by decide) (by decide) (by decide) (by decide) (by decide) rfl).2.2⟩

/-- C10: when retries are exhausted, the pipeline error wraps only
`ErrExceededRetries` prefixed with the step identity; the attempts' own
domain errors are discarded, so `errors.Is` on the returned error matches
no user domain sentinel and no attempt error that is not itself the
exhaustion sentinel. -/
theorem exhaustion_discards_domain_error {α T : Type} [Inhabited T] (c : Chain α T)
    (f : Func α) (e : Nat → GoError) (fwd : List GoError) (n : Nat)
    (hc : c.err = none) (hd : c.ctx = false)
    (hretry : c.retry.NumRetries = (n : Int)) (hF : c.retry.Forward = some fwd)
    (hn1 : 1 ≤ n)
    (hf : ∀ k, f.run c.ctx c.args k = .err (e k))
    (hfwd : ∀ k, fwd.any (fun t => errorsIs (e k) t) = false) :
    (c.ThenI (some f)).1.err
        = some (.wrap ("error in " ++ f.name ++ ": ") (.base .exceededRetries))
      ∧ (∀ id msg, errorsIs (.wrap ("error in " ++ f.name ++ ": ") (.base .exceededRetries))
          (.base (.domain id msg)) = false)
      ∧ (∀ k, errorsIs (e k) (.base .exceededRetries) = false →
          errorsIs (.wrap ("error in " ++ f.name ++ ": ") (.base .exceededRetries)) (e k) = false) := by
  obtain ⟨ctx, t, retry, args, err⟩ := c
  obtain ⟨numR, baseW, fwdOpt⟩ := retry
  simp only at hc hd hretry hF hf
  subst hc hd hretry hF
  have hfuel : (1 + ((n : Nat) : Int)).toNat = n + 1 := by omega
  have hne : ((n : Nat) : Int) ≠ 0 := by omega
  refine ⟨?_, ?_, ?_⟩
  · have hloop := retryLoop_allFail ((n : Nat) : Int) fwd (fun k => f.run false args k) e
      hne hf hfwd (n + 1) 0
    simp [Chain.ThenI, Chain.thenWrap, hfuel, hloop]
  · intro id msg
    simp [errorsIs]
  · intro k hk
    have h1 : ¬(GoError.base .exceededRetries = e k) := fun h => by
      rw [← h] at hk
      simp [errorsIs] at hk
    have h2 : ¬(GoError.wrap ("error in " ++ f.name ++ ": ") (.base .exceededRetries) = e k) :=
      fun h => by
        rw [← h] at hk
        simp [errorsIs] at hk
    simp only [errorsIs, decide_eq_false h2, decide_eq_false h1, Bool.or_false]

/-- Witness for C10 with n = 1 and a constant domain error. -/
theorem exhaustion_discards_domain_error_witness :
    (Chain.ThenI (α := Int) (T := Int) ⟨false, 0, ⟨1, 10000000, some []⟩, [], none⟩
        (some ⟨"step", fun _ _ _ => .err (.base (.domain 3 "flaky"))⟩)).1.err
        = some (.wrap ("error in " ++ "step" ++ ": ") (.base .exceededRetries))
      ∧ errorsIs (.wrap ("error in " ++ "step" ++ ": ") (.base .exceededRetries))
          (.base (.domain 3 "flaky")) = false :=
  ⟨(exhaustion_discards_domain_error (α := Int) (T := Int)
      ⟨false, 0, ⟨1, 10000000, some []⟩, [], none⟩
      ⟨"step", fun _ _ _ => .err (.base (.domain 3 "flaky"))⟩
      (fun _ => .base (.domain 3 "flaky")) [] 1 rfl rfl rfl rfl (by decide)
      (fun _ => rfl) (fun _ => rfl)).1,
   (exhaustion_discards_domain_error (α := Int) (T := Int)
      ⟨false, 0, ⟨1, 10000000, some []⟩, [], none⟩
      ⟨"step", fun _ _ _ => .err (.base (.domain 3 "flaky"))⟩
      (fun _ => .base (.domain 3 "flaky")) [] 1 rfl rfl rfl rfl (by decide)
      (fun _ => rfl) (fun _ => rfl)).2.1 3 "flaky"⟩

/-- C7: nil functions yield the dedicated sentinels unless a terminal
error already exists.  On a healthy chain, `Then(nil)` produces a chain
whose terminal error is `ErrNilThenFunc` and `Finally(nil)` returns the
`t` placeholder (the zero value on API-built chains) with
`ErrNilFinalFunc`; on a chain already carrying error `e`, both return that
prior error instead. -/
theorem nilFunc_errors {α T : Type} [Inhabited T] (c c' : Chain α T) (e : GoError) :
    (c.err = none →
      c.ThenI none = (⟨false, default, ⟨0, 0, none⟩, [], some (.base .nilThenFunc)⟩, 0)
        ∧ c.FinallyI none = ((c.t, some (.base .nilFinalFunc)), 0))
    ∧ (c'.err = some e →
      c'.ThenI none = (c', 0) ∧ c'.FinallyI none = ((c'.t, some e), 0)) := by
  constructor
  · intro hc
    obtain ⟨ctx, t, retry, args, err⟩ := c
    simp only at hc
    subst hc
    exact ⟨rfl, rfl⟩
  · intro hc'
    obtain ⟨ctx, t, retry, args, err⟩ := c'
    simp only at hc'
    subst hc'
    exact ⟨rfl, rfl⟩

/-- Witness for C7 at a concrete healthy chain and a concrete errored
chain. -/
theorem nilFunc_errors_witness :
    (Chain.ThenI (α := Int) (T := Int) ⟨false, 0, ⟨0, 0, none⟩, [Int.ofNat 5], none⟩ none
        = (⟨false, 0, ⟨0, 0, none⟩, [], some (.base .nilThenFunc)⟩, 0)
      ∧ Chain.FinallyI (α := Int) (T := Int) ⟨false, 0, ⟨0, 0, none⟩, [Int.ofNat 5], none⟩ none
        = ((0, some (.base .nilFinalFunc)), 0))
    ∧ (Chain.ThenI (α := Int) (T := Int)
          ⟨false, 0, ⟨0, 0, none⟩, [], some (.base (.domain 1 "prior"))⟩ none
        = (⟨false, 0, ⟨0, 0, none⟩, [], some (.base (.domain 1 "prior"))⟩, 0)
      ∧ Chain.FinallyI (α := Int) (T := Int)
          ⟨false, 0, ⟨0, 0, none⟩, [], some (.base (.domain 1 "prior"))⟩ none
        = ((0, some (.base (.domain 1 "prior"))), 0)) :=
  ⟨(nilFunc_errors ⟨false, 0, ⟨0, 0, none⟩, [Int.ofNat 5], none⟩
      ⟨false, 0, ⟨0, 0, none⟩, [], some (.base (.domain 1 "prior"))⟩ (.base (.domain 1 "prior"))).1 rfl,
   (nilFunc_errors ⟨false, 0, ⟨0, 0, none⟩, [Int.ofNat 5], none⟩
      ⟨false, 0, ⟨0, 0, none⟩, [], some (.base (.domain 1 "prior"))⟩ (.base (.domain 1 "prior"))).2 rfl⟩

/-- C8: `ensureValid` clamps and copies.  `NumRetries` is clamped into
[0,8] (negatives to 0, values above 8 to 8, in-range values kept),
`BaseWait` becomes 10ms when non-positive and is otherwise capped at 1s
(in-range values kept), and `Forward` becomes a non-nil slice with the
contents of the input slice (empty when the input is nil). -/
theorem ensureValid_clamps (r : Retry) :
    r.ensureValid.NumRetries = min 8 (max 0 r.NumRetries)
      ∧ r.ensureValid.BaseWait
        = (if r.BaseWait ≤ 0 then 10000000 else min 1000000000 r.BaseWait)
      ∧ r.ensureValid.Forward = some (r.Forward.getD []) := by
  obtain ⟨numR, baseW, fwdOpt⟩ := r
  refine ⟨?_, ?_, ?_⟩
  · simp only [Retry.ensureValid]
    split_ifs <;> omega
  · simp only [Retry.ensureValid]
    split_ifs <;> omega
  · cases fwdOpt <;> rfl

/-- C9: backoff with jitter stays within the advertised interval.  For a
policy with positive `BaseWait` and any jitter value that
`rand.Int63n(int64(backoff / 2))` can return (i.e. `0 ≤ jitter <
backoff / 2`), the backoff before 0-indexed retry `attempt` equals
`BaseWait * 2 ^ attempt`, and the total sleep `backoff + jitter` lies in
`[BaseWait * 2^attempt, BaseWait * 2^attempt * 1.5)` — stated integrally
as `backoff ≤ sleep` and `2 * sleep < 3 * backoff`. -/
theorem sleep_within_bounds {α T : Type} (c : Chain α T) (attempt : Nat) (jitter : Int)
    (hb : 0 < c.retry.BaseWait) (hj0 : 0 ≤ jitter)
    (hj1 : jitter < c.sleepBackoff attempt / 2) :
    c.sleepBackoff attempt = c.retry.BaseWait * 2 ^ attempt
      ∧ c.sleepBackoff attempt ≤ c.sleepDuration attempt jitter
      ∧ 2 * c.sleepDuration attempt jitter < 3 * c.sleepBackoff attempt := by
  have hbpos : 0 < c.sleepBackoff attempt := by
    have h2 : (0 : Int) < 2 ^ attempt := pow_pos (by norm_num) attempt
    exact mul_pos hb h2
  refine ⟨rfl, ?_, ?_⟩ <;> unfold Chain.sleepDuration <;> omega

/-- Witness for C9 at `BaseWait` 10ms, retry index 3, jitter 12345ns. -/
theorem sleep_within_bounds_witness :
    Chain.sleepBackoff (α := Int) (T := Int) ⟨false, 0, ⟨2, 10000000, some []⟩, [], none⟩ 3
        = 10000000 * 2 ^ 3
      ∧ Chain.sleepBackoff (α := Int) (T := Int) ⟨false, 0, ⟨2, 10000000, some []⟩, [], none⟩ 3
        ≤ Chain.sleepDuration (α := Int) (T := Int)
            ⟨false, 0, ⟨2, 10000000, some []⟩, [], none⟩ 3 12345
      ∧ 2 * Chain.sleepDuration (α := Int) (T := Int)
            ⟨false, 0, ⟨2, 10000000, some []⟩, [], none⟩ 3 12345
        < 3 * Chain.sleepBackoff (α := Int) (T := Int)
            ⟨false, 0, ⟨2, 10000000, some []⟩, [], none⟩ 3 :=
  sleep_within_bounds ⟨false, 0, ⟨2, 10000000, some []⟩, [], none⟩ 3 12345
    (by decide) (by decide) (by decide)

/-- C5: `ProcessWithRetries` (and `Process`) of chain.go are definitionally
the fold of `Then` over the steps from the initial chain followed by
`Finally`, with nil/empty steps going straight to `Finally` — but the
`Process` of the earlier revision (src/unnamed/part_000) is NOT equivalent
to folding from an initial chain built with the same args: it passes the
`[]any` slice to the variadic `New` without the `...` spread, so the
pipeline starts from the single wrapped argument `[]any{args}`.  At the
concrete failing input `args = [5]` with no steps and a final function
returning its first argument, part_000's `Process` yields the wrapped
slice `[]any{5}` where direct `Finally` on a chain built from the same
args yields `5`. -/
theorem process_fold_equiv_and_v0_deviation :
    (∀ (α T : Type) [Inhabited T] (ctx : Bool) (fs : List (Option (Func α)))
        (fn : Option (FinalFunc α T)) (retry : Retry) (args : List α),
      ProcessWithRetries ctx fs fn retry args
          = (fs.foldl (fun c f => c.Then f) (NewWithRetries ctx retry args)).Finally fn
        ∧ Process ctx fs fn args = ProcessWithRetries ctx fs fn ⟨0, 0, none⟩ args
        ∧ Process (α := α) (T := T) ctx [] fn args
          = (NewWithRetries ctx ⟨0, 0, none⟩ args).Finally fn)
    ∧ V0.Process (T := GoVal) false []
        (some ⟨"head", fun _ args => .ok (args.headD (GoVal.int 0))⟩) [GoVal.int 5]
      = (GoVal.slice [GoVal.int 5], none)
    ∧ (V0.New (T := GoVal) false [GoVal.int 5]).Finally
        (some ⟨"head", fun _ args => .ok (args.headD (GoVal.int 0))⟩)
      = (GoVal.int 5, none) := by
  refine ⟨?_, rfl, rfl⟩
  intro α T inst ctx fs fn retry args
  exact ⟨rfl, rfl, rfl⟩
